import Mathlib

/-!
Verification development for the Vapi campaign-creator data pipeline.

The definitions below are a shallow embedding of the source files:
  * `src/lib/chunkProcessor.ts` (the concatenated library file holding
    `ChunkProcessor`, `formatPhoneNumber`, and `validateAndCleanData`),
  * `src/public/workers/dataProcessor.js` (the web worker),
  * the fileParser module (`detectColumns` / `detectColumn`),
  * the `VapiClient` module (`createCampaign` / `createBatches`).

JavaScript strings are modelled as Lean `String` (a list of characters),
JavaScript arrays as Lean `List`, `Set<string>` as a `List String` queried
with `List.contains`, and `undefined`-able values as `Option`.  Network
requests performed by `VapiClient` are modelled by an oracle (`ServerModel`)
supplying the responses the remote API would return; the phone parser from
the external `libphonenumber-js` package (not part of this repository) is a
parameter `fmt : String → PhoneFormatResult` of the validator.
-/

/-- The character class matched by the JavaScript regexp `\s` (and trimmed by
`String.prototype.trim`): ASCII whitespace, NBSP, BOM and the Unicode space
separators. -/
def isJsWs (ch : Char) : Bool :=
  ch == ' ' || ch == '\t' || ch == '\n' || ch == '\r' ||
  ch == '\x0b' || ch == '\x0c' ||
  ch == ' ' || ch == ' ' ||
  (' ' ≤ ch && ch ≤ ' ') ||
  ch == ' ' || ch == ' ' || ch == ' ' ||
  ch == ' ' || ch == '　' || ch == '﻿'

/-- JavaScript `String.prototype.trim`: drop leading and trailing whitespace. -/
def trimString (s : String) : String :=
  ⟨((s.data.dropWhile isJsWs).reverse.dropWhile isJsWs).reverse⟩

/-- The effect of `replace(/\s+/g, ' ')`: every maximal run of whitespace
characters is replaced by a single space (a whitespace character inside a
run is dropped; the last character of a run becomes `' '`). -/
def collapseWs : List Char → List Char
  | [] => []
  | [c] => if isJsWs c then [' '] else [c]
  | c :: c2 :: cs =>
    if isJsWs c then
      if isJsWs c2 then collapseWs (c2 :: cs)
      else ' ' :: collapseWs (c2 :: cs)
    else c :: collapseWs (c2 :: cs)

/-- `cleanText` from the validator module (chunkProcessor.ts lines 273-286):
trim, collapse whitespace runs to one space, and strip the characters
`<`, `>` and `"`. -/
def cleanText (text : String) : String :=
  if text = "" then ""
  else
    ⟨(collapseWs (trimString text).data).filter
      (fun ch => !(ch == '<' || ch == '>' || ch == '\"'))⟩

/-- `isValidEmail` (chunkProcessor.ts lines 268-271): the test of the anchored
regexp `[^\s@]+ @ [^\s@]+ \. [^\s@]+`.  A string matches exactly when it has
a single `@`, no whitespace, a nonempty local part, and a domain part that
contains a dot which is neither its first nor its last character. -/
def isValidEmail (email : String) : Bool :=
  let cs := email.data
  let localPart := cs.takeWhile (fun ch => ch != '@')
  match cs.dropWhile (fun ch => ch != '@') with
  | [] => false
  | _ :: domain =>
    !localPart.isEmpty && localPart.all (fun ch => !isJsWs ch) &&
    !domain.isEmpty && domain.all (fun ch => !isJsWs ch && ch != '@') &&
    ((domain.drop 1).dropLast.contains '.')

/-- Result record of `formatPhoneNumber` (phoneFormatter.ts): `formatted` is
the canonical E.164 string on success, `error` the failure reason.  The
parser itself lives in the external libphonenumber-js package, so the
validator is parameterised over a function producing this record. -/
structure PhoneFormatResult where
  isValid : Bool
  formatted : Option String
  error : Option String
deriving DecidableEq, Repr

/-- JavaScript truthiness of a `string | undefined` value: defined and
nonempty. -/
def strTruthy : Option String → Bool
  | none => false
  | some s => s != ""

/-- JavaScript `x || d` for an optional string `x`: the string if truthy,
otherwise the default. -/
def orDefault (o : Option String) (d : String) : String :=
  match o with
  | some s => if s == "" then d else s
  | none => d

/-- A validated lead (`ValidatedLead` in dataValidator): canonical phone in
`number`, cleaned `name`, optional `email` (present only when nonempty). -/
structure ValidatedLead where
  name : String
  number : String
  email : Option String
deriving DecidableEq, Repr

/-- An entry of the `invalid` output list: original row index, original row
data and all accumulated error strings. -/
structure InvalidRow (D : Type) where
  rowIndex : Nat
  data : D
  errors : List String
deriving DecidableEq, Repr

/-- One extracted input row of `validateAndCleanData`: 1-based row index and
the three semantic string fields, plus the original row data. -/
structure RowInput (D : Type) where
  rowIndex : Nat
  phone : String
  name : String
  email : String
  originalData : D
deriving DecidableEq, Repr

/-- The mutable state threaded through the `data.forEach` loop of
`validateAndCleanData`: the `valid` and `invalid` output arrays, the
`seenPhones` set (modelled as the list of insertions) and the `duplicates`
counter. -/
structure ValidationState (D : Type) where
  valid : List ValidatedLead
  invalid : List (InvalidRow D)
  seenPhones : List String
  duplicates : Nat
deriving DecidableEq, Repr

/-- The summary block of the validation result. -/
structure ValidationSummary where
  totalRows : Nat
  validRows : Nat
  invalidRows : Nat
  duplicateRows : Nat
deriving DecidableEq, Repr

/-- The full return value of `validateAndCleanData`. -/
structure ValidationResult (D : Type) where
  valid : List ValidatedLead
  invalid : List (InvalidRow D)
  duplicates : Nat
  summary : ValidationSummary
deriving DecidableEq, Repr

/-- The `errors` pushed by the phone validation of one row (chunkProcessor.ts
lines 216-219): one entry when `!phoneResult.isValid || !phoneResult.formatted`,
carrying the parser reason or the fallback. -/
def rowPhoneErrors (fmt : String → PhoneFormatResult) (row : RowInput D) :
    List String :=
  if !(fmt row.phone).isValid || !strTruthy (fmt row.phone).formatted then
    ["Invalid phone: " ++ orDefault (fmt row.phone).error "Unknown error"]
  else []

/-- The duplicate test of one row (line 222):
`phoneResult.formatted && seenPhones.has(phoneResult.formatted)`. -/
def rowDupFlag (fmt : String → PhoneFormatResult) (st : ValidationState D)
    (row : RowInput D) : Bool :=
  match (fmt row.phone).formatted with
  | some p => p != "" && st.seenPhones.contains p
  | none => false

/-- The email test of one row (lines 228-229): a nonempty trimmed email that
fails the format check. -/
def rowEmailBad (row : RowInput D) : Bool :=
  trimString row.email != "" && !isValidEmail (trimString row.email)

/-- All `errors` accumulated for one row, in push order: phone, duplicate,
email. -/
def rowErrors (fmt : String → PhoneFormatResult) (st : ValidationState D)
    (row : RowInput D) : List String :=
  rowPhoneErrors fmt row ++
    (if rowDupFlag fmt st row then ["Duplicate phone number"] else []) ++
    (if rowEmailBad row then ["Invalid email format"] else [])

/-- The body of the `data.forEach(row => ...)` loop of `validateAndCleanData`
(chunkProcessor.ts lines 212-253), acting on one row:
phone validation, duplicate check against `seenPhones` (incrementing the
`duplicates` counter), email validation (clearing an invalid email), name
cleaning, and the final bucketing of the row into `invalid` (any error) or
`valid` (no error, truthy phone, which then records the canonical phone in
`seenPhones`). -/
def processRow (fmt : String → PhoneFormatResult) (st : ValidationState D)
    (row : RowInput D) : ValidationState D :=
  let dups1 := st.duplicates + (if rowDupFlag fmt st row then 1 else 0)
  let cleanEmail := if rowEmailBad row then "" else trimString row.email
  if rowErrors fmt st row ≠ [] then
    { st with
      invalid := st.invalid ++
        [⟨row.rowIndex, row.originalData, rowErrors fmt st row⟩]
      duplicates := dups1 }
  else
    match (fmt row.phone).formatted with
    | some p =>
      if p ≠ "" then
        { st with
          seenPhones := st.seenPhones ++ [p]
          valid := st.valid ++
            [⟨cleanText row.name, p,
              if cleanEmail ≠ "" then some cleanEmail else none⟩]
          duplicates := dups1 }
      else { st with duplicates := dups1 }
    | none => { st with duplicates := dups1 }

/-- `validateAndCleanData` (chunkProcessor.ts lines 194-266): fold the
per-row step over the rows starting from empty outputs, then assemble the
result record with its summary counts. -/
def validateAndCleanData (fmt : String → PhoneFormatResult)
    (data : List (RowInput D)) : ValidationResult D :=
  let st := data.foldl (processRow fmt) ⟨[], [], [], 0⟩
  { valid := st.valid
    invalid := st.invalid
    duplicates := st.duplicates
    summary :=
      { totalRows := data.length
        validRows := st.valid.length
        invalidRows := st.invalid.length
        duplicateRows := st.duplicates } }

/-- `ChunkProcessor.processInChunks` (chunkProcessor.ts lines 36-57),
modelled for a positive chunk size: the loop `for (i = 0; i < data.length;
i += chunkSize)` processes `data.slice(i, i + chunkSize)`, appends the
processor output to `results`, and reports progress
`(min(i + chunkSize, total), total)` after the chunk.  The first component
is the accumulated `results` array, the second the sequence of progress
reports. -/
def processInChunksGo (c : Nat) (p : List T → List R) (total : Nat)
    (i : Nat) : List T → List R × List (Nat × Nat)
  | [] => ([], [])
  | x :: xs =>
    let chunk := x :: xs.take (c - 1)
    let rest := processInChunksGo c p total (i + c) (xs.drop (c - 1))
    (p chunk ++ rest.1, (min (i + c) total, total) :: rest.2)
termination_by l => l.length
decreasing_by
  have h := List.length_drop (c - 1) xs
  simp only [List.length_cons]
  omega

/-- The sequential chunked path: results plus the stream of
`onProgress(processed, total)` calls, in order. -/
def processInChunks (c : Nat) (p : List T → List R) (data : List T) :
    List R × List (Nat × Nat) :=
  processInChunksGo c p data.length 0 data

/-- An item as returned by the web worker `dataProcessor.js`: the original
item spread together with the added field `processed: true`. -/
structure Tagged (T : Type) where
  item : T
  processed : Bool
deriving DecidableEq, Repr

/-- `processData` of `src/public/workers/dataProcessor.js` (lines 17-51):
the worker chunks the raw data, maps every item to `{...item, processed:
true}` (it never receives the processor function), posts each chunk as a
`result` message and a progress pair after it.  First component: the
concatenation of the `result` payloads in arrival order; second: the
`progress` payloads. -/
def workerProcessDataGo (c : Nat) (total : Nat) (i : Nat) :
    List T → List (Tagged T) × List (Nat × Nat)
  | [] => ([], [])
  | x :: xs =>
    let chunk := x :: xs.take (c - 1)
    let rest := workerProcessDataGo c total (i + c) (xs.drop (c - 1))
    (chunk.map (fun it => ⟨it, true⟩) ++ rest.1,
     (min (i + c) total, total) :: rest.2)
termination_by l => l.length
decreasing_by
  have h := List.length_drop (c - 1) xs
  simp only [List.length_cons]
  omega

/-- The worker run on a dataset: all streamed results and progress pairs. -/
def workerProcessData (c : Nat) (data : List T) :
    List (Tagged T) × List (Nat × Nat) :=
  workerProcessDataGo c data.length 0 data

/-- `ChunkProcessor.processWithWebWorker` (chunkProcessor.ts lines 59-103):
the client posts `{type: 'process', data, chunkSize}` to the worker —
the `processor` argument is received but never transmitted — collects the
`result` payloads in order and resolves with them on `complete`. -/
def processWithWebWorker (c : Nat) (_processor : List T → List R)
    (data : List T) : List (Tagged T) :=
  (workerProcessData c data).1

/-- Chunk starts of the i-loop: `0, c, 2c, ...`, one per chunk; there are
`⌈n / c⌉` of them for a positive chunk size `c`. -/
def chunkStarts (c n : Nat) : List Nat :=
  (List.range ((n + c - 1) / c)).map (fun k => k * c)

/-- `VapiClient.createBatches` (VapiClient module lines 220-226), modelled
for a positive batch size: slice the array into contiguous pieces of
`batchSize` elements (the last one possibly shorter). -/
def createBatches (batchSize : Nat) : List T → List (List T)
  | [] => []
  | x :: xs =>
    (x :: xs.take (batchSize - 1)) ::
      createBatches batchSize (xs.drop (batchSize - 1))
termination_by l => l.length
decreasing_by
  have h := List.length_drop (batchSize - 1) xs
  simp only [List.length_cons]
  omega

/-- One entry of the per-batch accounting (`BatchResult` in VapiClient). -/
structure BatchResult where
  batchNumber : Nat
  success : Bool
  leadsProcessed : Nat
  error : Option String
deriving DecidableEq, Repr

/-- The `details` block of a successful campaign creation. -/
structure CampaignDetails where
  totalLeads : Nat
  batches : List BatchResult
deriving DecidableEq, Repr

/-- `CampaignCreateResponse` of the VapiClient module. -/
structure CampaignCreateResponse where
  success : Bool
  campaignId : Option String
  error : Option String
  details : Option CampaignDetails
deriving DecidableEq, Repr

/-- The responses of the remote campaign API, abstracted as an oracle: the
outcome of the initial campaign-creation request (`createOk`, the returned
`id`, and the error body message on failure) and, for each loop index `i`
of the batch loop, whether the append request for `batches[i]` returns an
ok status. -/
structure ServerModel where
  createOk : Bool
  createId : String
  createErrMsg : Option String
  appendOk : Nat → Bool

/-- The `customers` field of the campaign-creation body (VapiClient lines
152-155): `batches[0]`, which is `undefined` (`none`) when there are no
batches. -/
def campaignBodyCustomers (leads : List ValidatedLead) :
    Option (List ValidatedLead) :=
  (createBatches 1000 leads)[0]?

/-- The `for (let i = 1; i < batches.length; i++)` loop of `createCampaign`
(VapiClient lines 183-201), run over `batches.drop 1` with `i` starting at
1: every remaining batch is submitted and a `BatchResult` is pushed with
`batchNumber = i + 1`, the ok flag of the response, the batch length, and
the fixed message `'Failed to add batch'` on failure. -/
def appendLoop (ok : Nat → Bool) : Nat → List (List ValidatedLead) →
    List BatchResult
  | _, [] => []
  | i, b :: rest =>
    ⟨i + 1, ok i, b.length, if ok i then none else some "Failed to add batch"⟩
      :: appendLoop ok (i + 1) rest

/-- `VapiClient.createCampaign` (VapiClient lines 138-218), with the network
abstracted by `server`: partition the leads into batches of 1000, issue the
creation request carrying the first batch; on a non-ok status return
immediately with `success: false` and the body message (or the default); on
success run the append loop over the remaining batches and return
`success: true` with the campaign id and the batch results. -/
def createCampaign (server : ServerModel) (leads : List ValidatedLead) :
    CampaignCreateResponse :=
  let batches := createBatches 1000 leads
  if !server.createOk then
    { success := false
      campaignId := none
      error := some (orDefault server.createErrMsg "Failed to create campaign")
      details := none }
  else
    { success := true
      campaignId := some server.createId
      error := none
      details := some
        { totalLeads := leads.length
          batches := appendLoop server.appendOk 1 (batches.drop 1) } }

/-- Header normalization of `detectColumn` (fileParser module line 99):
`h.toLowerCase().replace(/[^a-z0-9]/g, '')` — lower-case every character
and keep only `a-z0-9` (ASCII lower-casing; the pattern lists are ASCII). -/
def normalizeHeader (h : String) : String :=
  ⟨(h.data.map Char.toLower).filter
    (fun ch => ('a' ≤ ch && ch ≤ 'z') || ('0' ≤ ch && ch ≤ '9'))⟩

/-- The score contributed by a single pattern to a normalized header
(the if/else chain at fileParser lines 106-114): 10 for an exact match,
else 5 when the header contains the pattern, else 2 when the pattern
contains the header and the header is longer than 3 characters. -/
def patternScore (normalized p : String) : Nat :=
  if normalized = p then 10
  else if decide (p.data <:+: normalized.data) then 5
  else if decide (normalized.data <:+: p.data) && decide (normalized.length > 3)
    then 2
  else 0

/-- The whole score of a normalized header: the `patterns.forEach`
accumulation of `detectColumn`. -/
def headerScore (patterns : List String) (normalized : String) : Nat :=
  patterns.foldl
    (fun score p =>
      if normalized = p then score + 10
      else if decide (p.data <:+: normalized.data) then score + 5
      else if decide (normalized.data <:+: p.data) &&
          decide (normalized.length > 3) then score + 2
      else score)
    0

/-- The `scores` array of `detectColumn` (lines 100-119): one
`{column, score}` entry per header with a positive score, in header
order. -/
def scoreEntries (patterns headers : List String) : List (String × Nat) :=
  headers.filterMap (fun h =>
    let sc := headerScore patterns (normalizeHeader h)
    if sc > 0 then some (h, sc) else none)

/-- Insert an entry into a list sorted by descending score, right before
the first entry whose score is less than or equal to its own.  `sortDesc`
builds the sorted list by inserting each element into the sorted result of
the elements after it, so on equal scores an element is placed before the
later-occurring ones — the order the source's stable
`Array.prototype.sort` with comparator `b.score - a.score` produces. -/
def insertDesc (x : String × Nat) : List (String × Nat) → List (String × Nat)
  | [] => [x]
  | y :: ys => if y.2 ≤ x.2 then x :: y :: ys else y :: insertDesc x ys

/-- `scores.sort((a, b) => b.score - a.score)`: a stable sort by descending
score (ECMAScript `Array.prototype.sort` is stable). -/
def sortDesc : List (String × Nat) → List (String × Nat)
  | [] => []
  | x :: xs => insertDesc x (sortDesc xs)

/-- The return record of `detectColumn`. -/
structure DetectResult where
  column : Option String
  confidence : ℚ
  alternates : List String
deriving DecidableEq, Repr

/-- `detectColumn` (fileParser lines 98-131): score every header, keep the
positive ones, sort by descending score; the top entry (when present and
truthy) is the detected column with confidence `min(score / 10, 1)`, the
next three entries are the alternates. -/
def detectColumn (headers patterns : List String) : DetectResult :=
  let sorted := sortDesc (scoreEntries patterns headers)
  match sorted with
  | [] => ⟨none, 0, []⟩
  | best :: rest =>
    ⟨if best.1 = "" then none else some best.1,
     min ((best.2 : ℚ) / 10) 1,
     (rest.take 3).map Prod.fst⟩

/-- The fixed pattern list for the phone field (fileParser line 62). -/
def phonePatterns : List String :=
  ["phone", "mobile", "cell", "number", "telephone", "contact"]

/-- The fixed pattern list for the name field (fileParser line 63). -/
def namePatterns : List String :=
  ["name", "customer", "client", "contact", "person", "lead"]

/-- The fixed pattern list for the email field (fileParser line 64). -/
def emailPatterns : List String :=
  ["email", "mail", "email_address", "e-mail"]

/-- One entry of the `detectColumns` output. -/
structure ColumnDetection where
  field : String
  detectedColumn : Option String
  confidence : ℚ
  alternates : List String
deriving DecidableEq, Repr

/-- `detectColumns` (fileParser lines 61-96): run `detectColumn` for the
three semantic fields with their fixed pattern lists. -/
def detectColumns (headers : List String) : List ColumnDetection :=
  let phoneDetection := detectColumn headers phonePatterns
  let nameDetection := detectColumn headers namePatterns
  let emailDetection := detectColumn headers emailPatterns
  [⟨"phone", phoneDetection.column, phoneDetection.confidence,
    phoneDetection.alternates⟩,
   ⟨"name", nameDetection.column, nameDetection.confidence,
    nameDetection.alternates⟩,
   ⟨"email", emailDetection.column, emailDetection.confidence,
    emailDetection.alternates⟩]

/-! ### Helper lemmas about the per-row validation step -/

theorem strTruthy_eq_true_iff (o : Option String) :
    strTruthy o = true ↔ ∃ p, o = some p ∧ p ≠ "" := by
  cases o <;> simp [strTruthy]

theorem rowErrors_eq_nil {fmt : String → PhoneFormatResult}
    {st : ValidationState D} {row : RowInput D}
    (h : rowErrors fmt st row = []) :
    rowPhoneErrors fmt row = [] ∧ rowDupFlag fmt st row = false ∧
      rowEmailBad row = false := by
  unfold rowErrors at h
  rw [List.append_eq_nil, List.append_eq_nil] at h
  obtain ⟨⟨h1, h2⟩, h3⟩ := h
  refine ⟨h1, ?_, ?_⟩
  · cases hd : rowDupFlag fmt st row
    · rfl
    · rw [hd] at h2; simp at h2
  · cases he : rowEmailBad row
    · rfl
    · rw [he] at h3; simp at h3

theorem rowPhoneErrors_eq_nil {fmt : String → PhoneFormatResult}
    {row : RowInput D} (h : rowPhoneErrors fmt row = []) :
    (fmt row.phone).isValid = true ∧
      strTruthy (fmt row.phone).formatted = true := by
  unfold rowPhoneErrors at h
  split at h
  · exact absurd h (by simp)
  · next hc =>
    simp only [Bool.or_eq_true, Bool.not_eq_true'] at hc
    push_neg at hc
    obtain ⟨h1, h2⟩ := hc
    rw [Bool.ne_false_iff] at h1 h2
    exact ⟨h1, h2⟩

/-- In the error branch the row is pushed to `invalid` with all its
accumulated errors; `valid` and `seenPhones` are untouched. -/
theorem processRow_invalid_case {fmt : String → PhoneFormatResult}
    {st : ValidationState D} {row : RowInput D}
    (h : rowErrors fmt st row ≠ []) :
    processRow fmt st row =
      { st with
        invalid := st.invalid ++
          [⟨row.rowIndex, row.originalData, rowErrors fmt st row⟩]
        duplicates := st.duplicates +
          (if rowDupFlag fmt st row then 1 else 0) } := by
  unfold processRow
  rw [if_pos h]

/-- In the error-free branch the phone is truthy; the row is pushed to
`valid`, its canonical phone to `seenPhones`, and `invalid` and the
duplicate counter are untouched. -/
theorem processRow_valid_case {fmt : String → PhoneFormatResult}
    {st : ValidationState D} {row : RowInput D}
    (h : rowErrors fmt st row = []) :
    ∃ p, (fmt row.phone).formatted = some p ∧ p ≠ "" ∧
      processRow fmt st row =
        { st with
          seenPhones := st.seenPhones ++ [p]
          valid := st.valid ++
            [⟨cleanText row.name, p,
              if trimString row.email ≠ "" then some (trimString row.email)
              else none⟩] } := by
  obtain ⟨hp, hd, he⟩ := rowErrors_eq_nil h
  obtain ⟨-, ht⟩ := rowPhoneErrors_eq_nil hp
  rw [strTruthy_eq_true_iff] at ht
  obtain ⟨p, hfmt, hpne⟩ := ht
  refine ⟨p, hfmt, hpne, ?_⟩
  unfold processRow
  rw [if_neg (by simp [h])]
  simp only [hfmt, hd, he]
  simp [hpne]

/-- Each processed row lands in exactly one of the two output lists: the
step increases `valid.length + invalid.length` by exactly one, and the
duplicate counter never grows faster than the invalid list. -/
theorem processRow_count (fmt : String → PhoneFormatResult)
    (st : ValidationState D) (row : RowInput D) :
    (processRow fmt st row).valid.length +
        (processRow fmt st row).invalid.length =
      st.valid.length + st.invalid.length + 1 ∧
    (processRow fmt st row).duplicates + st.invalid.length ≤
      st.duplicates + (processRow fmt st row).invalid.length := by
  by_cases h : rowErrors fmt st row = []
  · obtain ⟨p, -, -, heq⟩ := processRow_valid_case h
    rw [heq]
    simp
    omega
  · rw [processRow_invalid_case h]
    have : (if rowDupFlag fmt st row then 1 else 0) ≤ 1 := by
      split <;> omega
    simp only [List.length_append, List.length_cons, List.length_nil]
    omega

/-- Folding the per-row step: the combined output length grows by the number
of rows, and the duplicate counter never outgrows the invalid list. -/
theorem foldl_processRow_count (fmt : String → PhoneFormatResult) :
    ∀ (l : List (RowInput D)) (st : ValidationState D),
      (l.foldl (processRow fmt) st).valid.length +
          (l.foldl (processRow fmt) st).invalid.length =
        st.valid.length + st.invalid.length + l.length ∧
      (l.foldl (processRow fmt) st).duplicates + st.invalid.length ≤
        st.duplicates + (l.foldl (processRow fmt) st).invalid.length
  | [], st => by simp
  | row :: l, st => by
    have hstep := processRow_count fmt st row
    have hrest := foldl_processRow_count fmt l (processRow fmt st row)
    simp only [List.foldl_cons, List.length_cons]
    omega

/-- C9.  `validateAndCleanData` partitions its input: in the returned
summary, `validRows + invalidRows = totalRows`, `totalRows` is the input
length, and `duplicateRows ≤ invalidRows` (every row counted as a duplicate
carries an error and lands in the invalid list).  This holds for every
phone-parser oracle `fmt` and every input row list. -/
theorem validateAndCleanData_partitions (fmt : String → PhoneFormatResult)
    (data : List (RowInput D)) :
    (validateAndCleanData fmt data).summary.validRows +
        (validateAndCleanData fmt data).summary.invalidRows =
      (validateAndCleanData fmt data).summary.totalRows ∧
    (validateAndCleanData fmt data).summary.totalRows = data.length ∧
    (validateAndCleanData fmt data).summary.duplicateRows ≤
      (validateAndCleanData fmt data).summary.invalidRows ∧
    (validateAndCleanData fmt data).summary.validRows =
      (validateAndCleanData fmt data).valid.length ∧
    (validateAndCleanData fmt data).summary.invalidRows =
      (validateAndCleanData fmt data).invalid.length := by
  have h := foldl_processRow_count fmt data ⟨[], [], [], 0⟩
  unfold validateAndCleanData
  simp only [List.length_nil] at h ⊢
  refine ⟨by omega, by trivial, by omega, by trivial, by trivial⟩

/-- A concrete phone-parser oracle for counterexamples: every phone string
parses successfully to itself as its canonical form. -/
def fmtEcho : String → PhoneFormatResult :=
  fun s => ⟨true, some s, none⟩

/-- C2, counterexample.  A single row whose phone parses successfully to a
fresh canonical value but whose email fails the format check does NOT become
a Validated Lead: `errors` is nonempty (`['Invalid email format']`), so the
row is pushed to the invalid list and the valid list stays empty. -/
theorem validateAndCleanData_email_error_drops_row :
    (validateAndCleanData fmtEcho
      [⟨1, "+15551234567", "John", "no-at-sign", "orig"⟩]).valid = [] ∧
    (validateAndCleanData fmtEcho
      [⟨1, "+15551234567", "John", "no-at-sign", "orig"⟩]).invalid =
      [⟨1, "orig", ["Invalid email format"]⟩] := by
  constructor <;> rfl

/-- C2, amended.  A row whose phone parses successfully to a canonical value
not previously seen but whose provided email fails the format check gets the
error `'Invalid email format'` appended and is invalidated: it becomes an
Invalid Row Record carrying exactly that error, the valid list, the seen-set
and the duplicate counter are unchanged, and the cleared email never reaches
the output. -/
theorem processRow_email_error_invalidates
    (fmt : String → PhoneFormatResult) (st : ValidationState D)
    (row : RowInput D) (p : String)
    (hvalid : (fmt row.phone).isValid = true)
    (hfmt : (fmt row.phone).formatted = some p) (hp : p ≠ "")
    (hseen : st.seenPhones.contains p = false)
    (hne : trimString row.email ≠ "")
    (hbad : isValidEmail (trimString row.email) = false) :
    processRow fmt st row =
      { st with
        invalid := st.invalid ++
          [⟨row.rowIndex, row.originalData, ["Invalid email format"]⟩] } := by
  have hpe : rowPhoneErrors fmt row = [] := by
    unfold rowPhoneErrors
    rw [hvalid, hfmt]
    simp [strTruthy, hp]
  have hdf : rowDupFlag fmt st row = false := by
    unfold rowDupFlag
    rw [hfmt]
    simp
    intro _
    simpa using hseen
  have heb : rowEmailBad row = true := by
    unfold rowEmailBad
    simp [hne, hbad]
  have herr : rowErrors fmt st row = ["Invalid email format"] := by
    unfold rowErrors
    rw [hpe, hdf, heb]
    simp
  rw [processRow_invalid_case (by rw [herr]; simp), herr, hdf]
  simp

/-- Witness for the amended C2 theorem at a concrete input. -/
theorem processRow_email_error_invalidates_witness :
    ((fmtEcho "+15551234567").isValid = true ∧
     (fmtEcho "+15551234567").formatted = some "+15551234567" ∧
     "+15551234567" ≠ "" ∧
     (([] : List String).contains "+15551234567") = false ∧
     trimString "no-at-sign" ≠ "" ∧
     isValidEmail (trimString "no-at-sign") = false) ∧
    processRow fmtEcho (⟨[], [], [], 0⟩ : ValidationState String)
        ⟨1, "+15551234567", "John", "no-at-sign", "orig"⟩ =
      { (⟨[], [], [], 0⟩ : ValidationState String) with
        invalid := [] ++ [⟨1, "orig", ["Invalid email format"]⟩] } :=
  ⟨⟨rfl, rfl, by decide, rfl, by decide, rfl⟩,
   processRow_email_error_invalidates fmtEcho ⟨[], [], [], 0⟩
     ⟨1, "+15551234567", "John", "no-at-sign", "orig"⟩ "+15551234567"
     rfl rfl (by decide) rfl (by decide) rfl⟩

/-- Invariant of the validation fold: `seenPhones` is exactly the list of
canonical numbers of the accepted leads, and it never holds a number
twice. -/
theorem foldl_processRow_seen (fmt : String → PhoneFormatResult) :
    ∀ (l : List (RowInput D)) (st : ValidationState D),
      st.seenPhones = st.valid.map ValidatedLead.number →
      st.seenPhones.Nodup →
      (l.foldl (processRow fmt) st).seenPhones =
          (l.foldl (processRow fmt) st).valid.map ValidatedLead.number ∧
        (l.foldl (processRow fmt) st).seenPhones.Nodup
  | [], _, hmap, hnd => ⟨hmap, hnd⟩
  | row :: l, st, hmap, hnd => by
    rw [List.foldl_cons]
    by_cases h : rowErrors fmt st row = []
    · obtain ⟨p, hfmt, hp, heq⟩ := processRow_valid_case h
      have hdf := (rowErrors_eq_nil h).2.1
      rw [rowDupFlag, hfmt] at hdf
      have hpmem : p ∉ st.seenPhones := by
        intro hmem
        rw [Bool.and_eq_false_iff] at hdf
        rcases hdf with hdf | hdf
        · exact absurd hdf (by simp [hp])
        · exact absurd hdf (by simp [hmem])
      refine foldl_processRow_seen fmt l _ ?_ ?_
      · rw [heq]
        simp [hmap]
      · rw [heq]
        simp only [List.nodup_append, List.nodup_cons, List.not_mem_nil,
          not_false_iff, List.nodup_nil, and_true, true_and]
        exact ⟨hnd, by simpa using hpmem⟩
    · rw [processRow_invalid_case h]
      exact foldl_processRow_seen fmt l _ hmap hnd

/-- C3, counterexample.  Two rows share the canonical phone
`+15551234567`; the first has an invalid email, so it lands in `invalid`
with only `'Invalid email format'` and its phone is never recorded as seen.
The second — not the first in input order — is the one that becomes a
Validated Lead, and no row carries `'Duplicate phone number'`. -/
theorem validateAndCleanData_first_occurrence_not_kept :
    (validateAndCleanData fmtEcho
      [⟨1, "+15551234567", "a", "bad-email", "d1"⟩,
       ⟨2, "+15551234567", "b", "", "d2"⟩]).valid =
      [⟨"b", "+15551234567", none⟩] ∧
    (validateAndCleanData fmtEcho
      [⟨1, "+15551234567", "a", "bad-email", "d1"⟩,
       ⟨2, "+15551234567", "b", "", "d2"⟩]).invalid =
      [⟨1, "d1", ["Invalid email format"]⟩] := by
  constructor <;> rfl

/-- C3, amended.  (i) At most one Validated Lead is produced per canonical
phone: the accepted canonical numbers are pairwise distinct (the accepted
row is the first one that accumulates no error at its turn, since only
accepted rows enter the seen-set).  (ii) Every row processed while its
canonical phone is already in the seen-set — i.e. after some earlier row
with that canonical phone was accepted — is pushed to the Invalid Row
Record list with `'Duplicate phone number'` among its errors, increments
the duplicate counter, and leaves the valid list and seen-set unchanged. -/
theorem validateAndCleanData_duplicate_invariant :
    (∀ (D : Type) (fmt : String → PhoneFormatResult)
        (data : List (RowInput D)),
      ((validateAndCleanData fmt data).valid.map ValidatedLead.number).Nodup)
    ∧
    (∀ (D : Type) (fmt : String → PhoneFormatResult)
        (st : ValidationState D) (row : RowInput D) (p : String),
      (fmt row.phone).formatted = some p → p ≠ "" →
      st.seenPhones.contains p = true →
      (processRow fmt st row).valid = st.valid ∧
      (processRow fmt st row).seenPhones = st.seenPhones ∧
      (processRow fmt st row).duplicates = st.duplicates + 1 ∧
      ∃ errs, (processRow fmt st row).invalid =
          st.invalid ++ [⟨row.rowIndex, row.originalData, errs⟩] ∧
        "Duplicate phone number" ∈ errs) := by
  constructor
  · intro D fmt data
    have h := foldl_processRow_seen fmt data ⟨[], [], [], 0⟩ rfl List.nodup_nil
    unfold validateAndCleanData
    rw [← h.1]
    exact h.2
  · intro D fmt st row p hfmt hp hseen
    have hdf : rowDupFlag fmt st row = true := by
      rw [rowDupFlag, hfmt]
      have hmem : p ∈ st.seenPhones := by simpa using hseen
      simp [hp, hmem]
    have herr : rowErrors fmt st row ≠ [] := by
      rw [rowErrors, hdf]
      simp
    rw [processRow_invalid_case herr]
    refine ⟨rfl, rfl, by simp [hdf], rowErrors fmt st row, rfl, ?_⟩
    rw [rowErrors, hdf]
    simp

/-- Witness for the amended C3 theorem: part (ii) applied at a concrete
state whose seen-set already holds the canonical phone. -/
theorem validateAndCleanData_duplicate_invariant_witness :
    ((fmtEcho "+15551234567").formatted = some "+15551234567" ∧
     "+15551234567" ≠ "" ∧
     (["+15551234567"] : List String).contains "+15551234567" = true) ∧
    (processRow fmtEcho
        (⟨[⟨"a", "+15551234567", none⟩], [], ["+15551234567"], 0⟩ :
          ValidationState String)
        ⟨2, "+15551234567", "b", "", "d2"⟩).valid =
      [⟨"a", "+15551234567", none⟩] ∧
    (processRow fmtEcho
        (⟨[⟨"a", "+15551234567", none⟩], [], ["+15551234567"], 0⟩ :
          ValidationState String)
        ⟨2, "+15551234567", "b", "", "d2"⟩).seenPhones = ["+15551234567"] ∧
    (processRow fmtEcho
        (⟨[⟨"a", "+15551234567", none⟩], [], ["+15551234567"], 0⟩ :
          ValidationState String)
        ⟨2, "+15551234567", "b", "", "d2"⟩).duplicates = 0 + 1 ∧
    ∃ errs, (processRow fmtEcho
        (⟨[⟨"a", "+15551234567", none⟩], [], ["+15551234567"], 0⟩ :
          ValidationState String)
        ⟨2, "+15551234567", "b", "", "d2"⟩).invalid =
        [] ++ [⟨2, "d2", errs⟩] ∧
      "Duplicate phone number" ∈ errs :=
  ⟨⟨rfl, by decide, rfl⟩,
   validateAndCleanData_duplicate_invariant.2 String fmtEcho
     ⟨[⟨"a", "+15551234567", none⟩], [], ["+15551234567"], 0⟩
     ⟨2, "+15551234567", "b", "", "d2"⟩ "+15551234567" rfl (by decide) rfl⟩

/-! ### The batch upload loop -/

theorem appendLoop_length (ok : Nat → Bool) :
    ∀ (l : List (List ValidatedLead)) (i : Nat),
      (appendLoop ok i l).length = l.length
  | [], _ => rfl
  | _ :: rest, i => by
    simp [appendLoop, appendLoop_length ok rest (i + 1)]

/-- Every batch handed to the append loop gets exactly one `BatchResult`,
regardless of the outcome of any other batch: entry `j` records batch
number `i + j + 1`, the ok flag of its own request, its own lead count, and
the fixed message on failure. -/
theorem appendLoop_getElem (ok : Nat → Bool) :
    ∀ (l : List (List ValidatedLead)) (i j : Nat),
      (appendLoop ok i l)[j]? =
        (l[j]?).map (fun b =>
          (⟨i + j + 1, ok (i + j), b.length,
            if ok (i + j) then none else some "Failed to add batch"⟩ :
            BatchResult))
  | [], i, j => by simp [appendLoop]
  | b :: rest, i, 0 => by simp [appendLoop]
  | b :: rest, i, j + 1 => by
    have h := appendLoop_getElem ok rest (i + 1) j
    simp only [appendLoop, List.getElem?_cons_succ]
    rw [h]
    have h1 : i + 1 + j = i + (j + 1) := by omega
    rw [h1]

/-- C4.  After a successful creation request, every remaining batch is
attempted no matter how earlier appends fared: the result is
`success: true` with the campaign id, the `BatchResult` list has one entry
per batch after the first, and entry `j` carries batch number `j + 2`, the
ok flag of its own append request, that batch's lead count, and the error
message exactly when its request failed. -/
theorem createCampaign_batch_failures_recorded (server : ServerModel)
    (leads : List ValidatedLead) (h : server.createOk = true) :
    (createCampaign server leads).success = true ∧
    (createCampaign server leads).campaignId = some server.createId ∧
    ∃ d, (createCampaign server leads).details = some d ∧
      d.totalLeads = leads.length ∧
      d.batches.length = (createBatches 1000 leads).length - 1 ∧
      ∀ j : Nat, d.batches[j]? =
        (((createBatches 1000 leads).drop 1)[j]?).map (fun b =>
          (⟨j + 2, server.appendOk (j + 1), b.length,
            if server.appendOk (j + 1) then none
            else some "Failed to add batch"⟩ : BatchResult)) := by
  unfold createCampaign
  rw [h]
  refine ⟨rfl, rfl,
    ⟨⟨leads.length,
      appendLoop server.appendOk 1 ((createBatches 1000 leads).drop 1)⟩,
     rfl, rfl, ?_, ?_⟩⟩
  · rw [appendLoop_length, List.length_drop]
  · intro j
    rw [appendLoop_getElem]
    have h1 : 1 + j = j + 1 := by omega
    rw [h1]

/-- Witness for C4 at a concrete input: creation succeeds, the only
append request (for the second batch) fails. -/
theorem createCampaign_batch_failures_recorded_witness :
    (⟨true, "cmp_1", none, fun _ => false⟩ : ServerModel).createOk = true ∧
    ((createCampaign ⟨true, "cmp_1", none, fun _ => false⟩
        (List.replicate 1500 ⟨"", "+15550000000", none⟩)).success = true ∧
     (createCampaign ⟨true, "cmp_1", none, fun _ => false⟩
        (List.replicate 1500 ⟨"", "+15550000000", none⟩)).campaignId =
       some "cmp_1" ∧
     ∃ d, (createCampaign ⟨true, "cmp_1", none, fun _ => false⟩
        (List.replicate 1500 ⟨"", "+15550000000", none⟩)).details = some d ∧
       d.totalLeads = (List.replicate 1500
         (⟨"", "+15550000000", none⟩ : ValidatedLead)).length ∧
       d.batches.length =
         (createBatches 1000 (List.replicate 1500
           (⟨"", "+15550000000", none⟩ : ValidatedLead))).length - 1 ∧
       ∀ j : Nat, d.batches[j]? =
         (((createBatches 1000 (List.replicate 1500
             (⟨"", "+15550000000", none⟩ : ValidatedLead))).drop 1)[j]?).map
           (fun b => (⟨j + 2, false, b.length,
             if false then none else some "Failed to add batch"⟩ :
             BatchResult))) :=
  ⟨rfl,
   createCampaign_batch_failures_recorded
     ⟨true, "cmp_1", none, fun _ => false⟩
     (List.replicate 1500 ⟨"", "+15550000000", none⟩) rfl⟩

/-- C5.  When the first request (campaign creation carrying the first
batch) returns a non-success status, `createCampaign` returns immediately:
`success: false`, the body error message (or the default), no campaign id
and no details — in particular no Batch Results.  When the server supplied
a nonempty message, that exact message is returned. -/
theorem createCampaign_creation_failure (server : ServerModel)
    (leads : List ValidatedLead) (h : server.createOk = false) :
    createCampaign server leads =
      ⟨false, none,
        some (orDefault server.createErrMsg "Failed to create campaign"),
        none⟩ ∧
    ∀ m, server.createErrMsg = some m → m ≠ "" →
      (createCampaign server leads).error = some m := by
  have hmain : createCampaign server leads =
      ⟨false, none,
        some (orDefault server.createErrMsg "Failed to create campaign"),
        none⟩ := by
    unfold createCampaign
    rw [h]
    simp
  refine ⟨hmain, fun m hm hne => ?_⟩
  rw [hmain, hm]
  simp [orDefault, hne]

/-- Witness for C5 at a concrete input. -/
theorem createCampaign_creation_failure_witness :
    (⟨false, "unused", some "server says no", fun _ => true⟩ :
      ServerModel).createOk = false ∧
    (createCampaign ⟨false, "unused", some "server says no", fun _ => true⟩
        [⟨"n", "+15550000000", none⟩] =
      ⟨false, none,
        some (orDefault (some "server says no") "Failed to create campaign"),
        none⟩ ∧
     ∀ m, (some "server says no" : Option String) = some m → m ≠ "" →
       (createCampaign
         ⟨false, "unused", some "server says no", fun _ => true⟩
         [⟨"n", "+15550000000", none⟩]).error = some m) :=
  ⟨rfl,
   createCampaign_creation_failure
     ⟨false, "unused", some "server says no", fun _ => true⟩
     [⟨"n", "+15550000000", none⟩] rfl⟩

/-- C10.  With an empty Validated Lead list, `createBatches` returns no
batches, the `batches[0]` lookup for the creation body is out of bounds
(`none`), and — when the server accepts the creation request — the result
is `success: true` with an empty Batch Result list and an aggregate lead
count of 0. -/
theorem createCampaign_empty_leads (server : ServerModel)
    (h : server.createOk = true) :
    createBatches 1000 ([] : List ValidatedLead) = [] ∧
    campaignBodyCustomers [] = none ∧
    createCampaign server [] =
      ⟨true, some server.createId, none, some ⟨0, []⟩⟩ := by
  have hb : createBatches 1000 ([] : List ValidatedLead) = [] := by
    simp [createBatches]
  refine ⟨hb, ?_, ?_⟩
  · unfold campaignBodyCustomers
    rw [hb]
    rfl
  · unfold createCampaign
    rw [h, hb]
    rfl

/-- Witness for C10 at a concrete accepting server. -/
theorem createCampaign_empty_leads_witness :
    (⟨true, "cmp_0", none, fun _ => true⟩ : ServerModel).createOk = true ∧
    (createBatches 1000 ([] : List ValidatedLead) = [] ∧
     campaignBodyCustomers [] = none ∧
     createCampaign ⟨true, "cmp_0", none, fun _ => true⟩ [] =
       ⟨true, some "cmp_0", none, some ⟨0, []⟩⟩) :=
  ⟨rfl, createCampaign_empty_leads ⟨true, "cmp_0", none, fun _ => true⟩ rfl⟩

/-! ### Batch partitioning -/

/-- Concatenating the batches in order reproduces the input list. -/
theorem createBatches_flatten (c : Nat) :
    ∀ (xs : List T), (createBatches c xs).flatten = xs
  | [] => by simp [createBatches]
  | x :: xs => by
    have ih := createBatches_flatten c (xs.drop (c - 1))
    simp only [createBatches, List.flatten_cons, List.cons_append, ih,
      List.take_append_drop]
termination_by xs => xs.length
decreasing_by
  have h := List.length_drop (c - 1) xs
  simp only [List.length_cons]
  omega

theorem ceilDiv_succ (c n : Nat) (hc : 0 < c) :
    (n + 1 + c - 1) / c = (n - (c - 1) + c - 1) / c + 1 := by
  have hL : n + 1 + c - 1 = n + c := by omega
  rw [hL, Nat.add_div_right _ hc]
  rcases le_or_lt (c - 1) n with hle | hlt
  · rw [show n - (c - 1) + c - 1 = n from by omega]
  · rw [show n - (c - 1) + c - 1 = c - 1 from by omega,
      Nat.div_eq_of_lt (by omega), Nat.div_eq_of_lt (by omega)]

/-- The number of batches is the ceiling of `length / batchSize`. -/
theorem createBatches_length (c : Nat) (hc : 0 < c) :
    ∀ (xs : List T), (createBatches c xs).length = (xs.length + c - 1) / c
  | [] => by
    have h : (c - 1) / c = 0 := Nat.div_eq_of_lt (by omega)
    simp [createBatches, h]
  | x :: xs => by
    have ih := createBatches_length c hc (xs.drop (c - 1))
    simp only [createBatches, List.length_cons, ih, List.length_drop]
    rw [ceilDiv_succ c xs.length hc]
termination_by xs => xs.length
decreasing_by
  have h := List.length_drop (c - 1) xs
  simp only [List.length_cons]
  omega

/-- When every append request succeeds, every recorded batch result has
`success = true`. -/
theorem appendLoop_all_success (ok : Nat → Bool) (hok : ∀ k, ok k = true) :
    ∀ (l : List (List ValidatedLead)) (i : Nat),
      ∀ b ∈ appendLoop ok i l, b.success = true
  | [], _, b, hb => absurd hb (List.not_mem_nil b)
  | x :: rest, i, b, hb => by
    rw [appendLoop] at hb
    rcases List.mem_cons.mp hb with hb | hb
    · rw [hb, hok]
    · exact appendLoop_all_success ok hok rest (i + 1) b hb

/-- C6.  `createBatches` with batch size 1000 partitions the lead list into
`⌈n / 1000⌉` contiguous batches whose concatenation reproduces the list;
for 2500 leads and a fully successful run, 3 batches are created, the Batch
Result list has length 2, and the reported aggregate lead count is 2500. -/
theorem createBatches_partition (leads : List ValidatedLead) :
    (createBatches 1000 leads).flatten = leads ∧
    (createBatches 1000 leads).length = (leads.length + 999) / 1000 ∧
    (∀ server : ServerModel, leads.length = 2500 → server.createOk = true →
      (∀ i, server.appendOk i = true) →
      (createCampaign server leads).success = true ∧
      (createBatches 1000 leads).length = 3 ∧
      ∃ d, (createCampaign server leads).details = some d ∧
        d.totalLeads = 2500 ∧ d.batches.length = 2 ∧
        ∀ b ∈ d.batches, b.success = true) := by
  have hflat := createBatches_flatten 1000 leads
  have hlen := createBatches_length 1000 (by omega) leads
  have h999 : leads.length + 1000 - 1 = leads.length + 999 := by omega
  refine ⟨hflat, by rw [hlen, h999], ?_⟩
  intro server h2500 hok hap
  have hlen3 : (createBatches 1000 leads).length = 3 := by
    rw [hlen, h2500]
  unfold createCampaign
  rw [hok]
  refine ⟨rfl,  hlen3,
    ⟨⟨leads.length,
      appendLoop server.appendOk 1 ((createBatches 1000 leads).drop 1)⟩,
     rfl, h2500, ?_, ?_⟩⟩
  · rw [appendLoop_length, List.length_drop, hlen3]
  · exact appendLoop_all_success server.appendOk hap _ 1

/-- Witness for C6: 2500 identical leads and a server accepting
everything. -/
theorem createBatches_partition_witness :
    (List.replicate 2500 (⟨"", "+15550000000", none⟩ : ValidatedLead)).length
      = 2500 ∧
    (⟨true, "cmp_2", none, fun _ => true⟩ : ServerModel).createOk = true ∧
    (∀ i, (⟨true, "cmp_2", none, fun _ => true⟩ : ServerModel).appendOk i
      = true) ∧
    ((createCampaign ⟨true, "cmp_2", none, fun _ => true⟩
        (List.replicate 2500 ⟨"", "+15550000000", none⟩)).success = true ∧
     (createBatches 1000
        (List.replicate 2500 (⟨"", "+15550000000", none⟩ : ValidatedLead))).length
       = 3 ∧
     ∃ d, (createCampaign ⟨true, "cmp_2", none, fun _ => true⟩
        (List.replicate 2500 ⟨"", "+15550000000", none⟩)).details = some d ∧
       d.totalLeads = 2500 ∧ d.batches.length = 2 ∧
       ∀ b ∈ d.batches, b.success = true) :=
  ⟨by rw [List.length_replicate], rfl, fun _ => rfl,
   (createBatches_partition
       (List.replicate 2500 ⟨"", "+15550000000", none⟩)).2.2
     ⟨true, "cmp_2", none, fun _ => true⟩ (by rw [List.length_replicate]) rfl
     (fun _ => rfl)⟩

/-! ### Progress reporting of the sequential chunked path -/

/-- Closed form of the progress stream: one report per chunk, the `k`-th
report being `(min(k*c + c, total), total)`. -/
theorem processInChunksGo_progress (c : Nat) (hc : 0 < c)
    (p : List T → List R) (total : Nat) :
    ∀ (l : List T) (i : Nat),
      (processInChunksGo c p total i l).2 =
        (List.range ((l.length + c - 1) / c)).map
          (fun k => (min (i + (k + 1) * c) total, total))
  | [], i => by
    have h0 : (c - 1) / c = 0 := Nat.div_eq_of_lt (by omega)
    simp [processInChunksGo, h0]
  | x :: xs, i => by
    have ih := processInChunksGo_progress c hc p total (xs.drop (c - 1)) (i + c)
    simp only [processInChunksGo, ih, List.length_drop, List.length_cons]
    rw [ceilDiv_succ c xs.length hc, List.range_succ_eq_map, List.map_cons,
      List.map_map]
    congr 1
    · norm_num
    · apply List.map_congr_left
      intro k _
      simp only [Function.comp, Nat.succ_eq_add_one]
      congr 2
      ring
termination_by l => l.length
decreasing_by
  have h := List.length_drop (c - 1) xs
  simp only [List.length_cons]
  omega

/-- A list of reports with weakly increasing processed counts forms a
`Chain'` in the first component. -/
theorem chain_of_monotone_reports (n : Nat) :
    ∀ (N : Nat) (f : Nat → Nat), (∀ k, f k ≤ f (k + 1)) →
      List.Chain' (fun a b => (a : Nat × Nat).1 ≤ b.1)
        ((List.range N).map (fun k => (f k, n)))
  | 0, _, _ => by simp
  | N + 1, f, hf => by
    rw [List.range_succ_eq_map, List.map_cons, List.map_map]
    rw [List.chain'_cons']
    constructor
    · intro y hy
      cases N with
      | zero => simp at hy
      | succ M =>
        rw [List.range_succ_eq_map] at hy
        simp only [List.map_cons, List.map_map, List.head?_cons,
          Option.mem_def, Option.some.injEq] at hy
        rw [← hy]
        exact hf 0
    · have h := chain_of_monotone_reports n N (fun k => f (k + 1))
        (fun k => hf (k + 1))
      simpa [Function.comp] using h

/-- C8.  In the sequential chunked path the progress callback fires exactly
once per chunk, with arguments `(min(chunkStart + chunkSize, total), total)`
for the chunk starting at `chunkStart`; the reported processed counts are
monotonically non-decreasing over the run, and for nonempty input the final
report is `(total, total)`. -/
theorem processInChunks_progress (c : Nat) (hc : 0 < c)
    (p : List T → List R) (data : List T) :
    (processInChunks c p data).2 =
      (chunkStarts c data.length).map
        (fun s => (min (s + c) data.length, data.length)) ∧
    List.Chain' (fun a b => a.1 ≤ b.1) (processInChunks c p data).2 ∧
    (data ≠ [] →
      (processInChunks c p data).2.getLast? =
        some (data.length, data.length)) := by
  have hgo := processInChunksGo_progress c hc p data.length data 0
  have h1 : (processInChunks c p data).2 =
      (List.range ((data.length + c - 1) / c)).map
        (fun k => (min (k * c + c) data.length, data.length)) := by
    rw [processInChunks, hgo]
    apply List.map_congr_left
    intro k _
    congr 2
    ring
  refine ⟨?_, ?_, ?_⟩
  · rw [h1, chunkStarts, List.map_map]
    apply List.map_congr_left
    intro k _
    rfl
  · rw [h1]
    apply chain_of_monotone_reports
    intro k
    refine min_le_min ?_ le_rfl
    have h2 : (k + 1) * c = k * c + c := by ring
    rw [h2]
    exact Nat.le_add_right _ c
  · intro hne
    have hn : 1 ≤ data.length := List.length_pos.mpr hne
    have hN : 1 ≤ (data.length + c - 1) / c :=
      (Nat.one_le_div_iff hc).mpr (by omega)
    rw [h1, List.getLast?_map, List.getLast?_range, if_neg (by omega)]
    simp only [Option.map_some']
    have hle : c ≤ ((data.length + c - 1) / c) * c :=
      Nat.le_mul_of_pos_left c (by omega)
    have hNc : ((data.length + c - 1) / c - 1) * c + c =
        ((data.length + c - 1) / c) * c := by
      rw [Nat.sub_one_mul]
      omega
    have hfin : min (((data.length + c - 1) / c - 1) * c + c) data.length =
        data.length := by
      apply min_eq_right
      rw [hNc]
      have hN1 : (data.length + c - 1) / c = (data.length - 1) / c + 1 := by
        rw [show data.length + c - 1 = data.length - 1 + c from by omega,
          Nat.add_div_right _ hc]
      rw [hN1,
        show ((data.length - 1) / c + 1) * c = (data.length - 1) / c * c + c
          from by ring]
      have hlt2 := Nat.lt_div_mul_add (a := data.length - 1) hc
      have h3 : data.length ≤ data.length - 1 + 1 := by omega
      linarith
    rw [hfin]

/-- Witness for C8 at chunk size 2 on a three-element list. -/
theorem processInChunks_progress_witness :
    ((0 : Nat) < 2 ∧ ([10, 20, 30] : List Nat) ≠ []) ∧
    ((processInChunks 2 (fun l => l) ([10, 20, 30] : List Nat)).2 =
        (chunkStarts 2 ([10, 20, 30] : List Nat).length).map
          (fun s => (min (s + 2) ([10, 20, 30] : List Nat).length,
            ([10, 20, 30] : List Nat).length)) ∧
      List.Chain' (fun a b => a.1 ≤ b.1)
        (processInChunks 2 (fun l => l) ([10, 20, 30] : List Nat)).2 ∧
      (processInChunks 2 (fun l => l) ([10, 20, 30] : List Nat)).2.getLast? =
        some (([10, 20, 30] : List Nat).length,
          ([10, 20, 30] : List Nat).length)) :=
  ⟨⟨by decide, by decide⟩,
   (processInChunks_progress 2 (by decide) (fun l => l)
      ([10, 20, 30] : List Nat)).1,
   (processInChunks_progress 2 (by decide) (fun l => l)
      ([10, 20, 30] : List Nat)).2.1,
   (processInChunks_progress 2 (by decide) (fun l => l)
      ([10, 20, 30] : List Nat)).2.2 (by decide)⟩

/-- C1.  The two execution paths of `ChunkProcessor.processData` do NOT
yield identical results for identical input: the worker script never
receives the `processor` function — it maps every raw item to
`{...item, processed: true}` — while the sequential path applies the
processor to every chunk.  At chunk size 1000 on the one-element dataset
`[5]`, with a processor tagging items `processed := false`, the sequential
path returns `[⟨5, false⟩]` and the worker path returns `[⟨5, true⟩]`:
the validation the sequential path performs is simply absent from the
worker path. -/
theorem processData_paths_differ :
    (processInChunks 1000
      (fun chunk => chunk.map (fun t => (⟨t, false⟩ : Tagged Nat)))
      [5]).1 = [⟨5, false⟩] ∧
    processWithWebWorker 1000
      (fun chunk => chunk.map (fun t => (⟨t, false⟩ : Tagged Nat)))
      [5] = [⟨5, true⟩] ∧
    (processInChunks 1000
      (fun chunk => chunk.map (fun t => (⟨t, false⟩ : Tagged Nat)))
      [5]).1 ≠
      processWithWebWorker 1000
        (fun chunk => chunk.map (fun t => (⟨t, false⟩ : Tagged Nat)))
        [5] := by
  have h1 : (processInChunks 1000
      (fun chunk => chunk.map (fun t => (⟨t, false⟩ : Tagged Nat)))
      [5]).1 = [⟨5, false⟩] := by
    simp [processInChunks, processInChunksGo]
  have h2 : processWithWebWorker 1000
      (fun chunk => chunk.map (fun t => (⟨t, false⟩ : Tagged Nat)))
      [5] = [⟨5, true⟩] := by
    simp [processWithWebWorker, workerProcessData, workerProcessDataGo]
  exact ⟨h1, h2, by rw [h1, h2]; simp⟩

/-! ### Column detection -/

theorem headerScore_step (n p : String) (s : Nat) :
    (if n = p then s + 10
     else if decide (p.data <:+: n.data) then s + 5
     else if decide (n.data <:+: p.data) && decide (n.length > 3) then s + 2
     else s) = s + patternScore n p := by
  unfold patternScore
  by_cases h1 : n = p
  · simp [h1]
  · by_cases h2 : p.data <:+: n.data
    · simp [h1, h2]
    · by_cases h3 : (decide (n.data <:+: p.data) && decide (n.length > 3))
        = true
      · simp [h1, h2, h3]
      · simp [h1, h2, h3]

/-- The accumulated score is the sum of the per-pattern contributions: the
`+10 / +5 / +2` cases accumulate over the pattern list. -/
theorem headerScore_eq_sum (patterns : List String) (n : String) :
    headerScore patterns n = (patterns.map (patternScore n)).sum := by
  suffices h : ∀ (l : List String) (s : Nat),
      l.foldl (fun score p =>
        if n = p then score + 10
        else if decide (p.data <:+: n.data) then score + 5
        else if decide (n.data <:+: p.data) && decide (n.length > 3)
          then score + 2
        else score) s = s + (l.map (patternScore n)).sum by
    have h0 := h patterns 0
    simpa [headerScore] using h0
  intro l
  induction l with
  | nil => simp
  | cons p rest ih =>
    intro s
    rw [List.foldl_cons, headerScore_step, ih, List.map_cons, List.sum_cons]
    omega

theorem string_eq_empty_iff (s : String) : s = "" ↔ s.data = [] := by
  cases s
  constructor
  · intro h
    rw [h]
  · intro h
    simp only at h
    rw [show ("" : String) = ⟨[]⟩ from rfl, h]

/-- Under nonempty patterns the empty normalized header scores zero. -/
theorem headerScore_empty_eq_zero (patterns : List String)
    (hpat : ∀ p ∈ patterns, p ≠ "") : headerScore patterns "" = 0 := by
  unfold headerScore
  induction patterns with
  | nil => rfl
  | cons p rest ih =>
    have hp : p ≠ "" := hpat p (List.mem_cons_self p rest)
    have hpd : ¬(p.data <:+: ("" : String).data) := by
      rw [show ("" : String).data = [] from rfl, List.infix_nil]
      intro hnil
      exact hp ((string_eq_empty_iff p).mpr hnil)
    have h1 : ("" : String) ≠ p := fun h => hp h.symm
    rw [List.foldl_cons, if_neg h1, if_neg (by simpa using hpd),
      if_neg (by simp)]
    exact ih (fun q hq => hpat q (List.mem_cons_of_mem p hq))

/-- Membership in the positive-score entry list. -/
theorem mem_scoreEntries (patterns headers : List String)
    (e : String × Nat) :
    e ∈ scoreEntries patterns headers ↔
      e.1 ∈ headers ∧ e.2 = headerScore patterns (normalizeHeader e.1) ∧
        0 < e.2 := by
  unfold scoreEntries
  rw [List.mem_filterMap]
  constructor
  · rintro ⟨h, hmem, hf⟩
    have hf' : (if headerScore patterns (normalizeHeader h) > 0
        then some (h, headerScore patterns (normalizeHeader h)) else none)
        = some e := hf
    split at hf'
    · next hpos =>
      rcases Option.some.inj hf' with rfl
      exact ⟨hmem, rfl, hpos⟩
    · exact absurd hf' (by simp)
  · rintro ⟨hmem, hsc, hpos⟩
    refine ⟨e.1, hmem, ?_⟩
    show (if headerScore patterns (normalizeHeader e.1) > 0
      then some (e.1, headerScore patterns (normalizeHeader e.1))
      else none) = some e
    rw [if_pos (by omega : headerScore patterns (normalizeHeader e.1) > 0),
      ← hsc]

/-- One entry per positive-scoring header. -/
theorem scoreEntries_length (patterns : List String) :
    ∀ headers : List String,
      (scoreEntries patterns headers).length =
        (headers.filter
          (fun h => 0 < headerScore patterns (normalizeHeader h))).length
  | [] => rfl
  | h :: rest => by
    have ih := scoreEntries_length patterns rest
    unfold scoreEntries at ih ⊢
    by_cases hpos : 0 < headerScore patterns (normalizeHeader h)
    · rw [List.filterMap_cons, List.filter_cons]
      simp only [if_pos hpos, decide_eq_true hpos]
      simp [ih]
    · rw [List.filterMap_cons, List.filter_cons]
      simp only [if_neg hpos]
      have hd : decide (0 < headerScore patterns (normalizeHeader h))
          = false := by simpa using hpos
      simp [hd, ih]

theorem insertDesc_perm (x : String × Nat) :
    ∀ l : List (String × Nat), (insertDesc x l).Perm (x :: l)
  | [] => List.Perm.refl _
  | y :: ys => by
    unfold insertDesc
    split
    · exact List.Perm.refl _
    · exact ((insertDesc_perm x ys).cons y).trans (List.Perm.swap x y ys)

theorem sortDesc_perm : ∀ l : List (String × Nat), (sortDesc l).Perm l
  | [] => List.Perm.refl _
  | x :: xs =>
    (insertDesc_perm x (sortDesc xs)).trans ((sortDesc_perm xs).cons x)

theorem pairwise_insertDesc (x : String × Nat) :
    ∀ l : List (String × Nat),
      l.Pairwise (fun a b => b.2 ≤ a.2) →
      (insertDesc x l).Pairwise (fun a b => b.2 ≤ a.2)
  | [], _ => List.pairwise_singleton _ x
  | y :: ys, hp => by
    unfold insertDesc
    rcases List.pairwise_cons.mp hp with ⟨hy, hys⟩
    split
    · next hlt =>
      rw [List.pairwise_cons]
      refine ⟨?_, hp⟩
      intro z hz
      rcases List.mem_cons.mp hz with rfl | hz
      · omega
      · exact le_trans (hy z hz) (by omega)
    · next hge =>
      rw [List.pairwise_cons]
      refine ⟨?_, pairwise_insertDesc x ys hys⟩
      intro z hz
      have hz2 := (insertDesc_perm x ys).mem_iff.mp hz
      rcases List.mem_cons.mp hz2 with rfl | hz3
      · omega
      · exact hy z hz3

theorem sortDesc_sorted : ∀ l : List (String × Nat),
    (sortDesc l).Pairwise (fun a b => b.2 ≤ a.2)
  | [] => List.Pairwise.nil
  | x :: xs => pairwise_insertDesc x (sortDesc xs) (sortDesc_sorted xs)


/-- Splitting a `filterMap` output around one element locates the producing
element in the input, with the earlier input segment producing exactly the
earlier output segment. -/
theorem filterMap_eq_append_cons {α β : Type} (f : α → Option β) :
    ∀ (H : List α) (E1 E2 : List β) (e : β),
      H.filterMap f = E1 ++ e :: E2 →
      ∃ H1 h H2, H = H1 ++ h :: H2 ∧ f h = some e ∧ H1.filterMap f = E1
  | [], E1, E2, e, h => by
    rw [List.filterMap_nil] at h
    exact absurd h.symm (by simp)
  | a :: H, E1, E2, e, h => by
    rw [List.filterMap_cons] at h
    cases hfa : f a with
    | none =>
      rw [hfa] at h
      obtain ⟨H1, h0, H2, hH, hfh, hfm⟩ :=
        filterMap_eq_append_cons f H E1 E2 e h
      exact ⟨a :: H1, h0, H2, by rw [hH]; rfl, hfh,
        by rw [List.filterMap_cons, hfa, hfm]⟩
    | some b =>
      rw [hfa] at h
      cases E1 with
      | nil =>
        simp only [List.nil_append] at h
        rcases List.cons.inj h with ⟨rfl, rfl⟩
        exact ⟨[], a, H, rfl, hfa, rfl⟩
      | cons b0 E1t =>
        simp only [List.cons_append] at h
        rcases List.cons.inj h with ⟨rfl, h2⟩
        obtain ⟨H1, h0, H2, hH, hfh, hfm⟩ :=
          filterMap_eq_append_cons f H E1t E2 e h2
        exact ⟨a :: H1, h0, H2, by rw [hH]; rfl, hfh,
          by rw [List.filterMap_cons, hfa, hfm]⟩

/-- The head of the stable descending sort is the FIRST entry of the input
attaining the maximal score: everything before it in the input scores
strictly less. -/
theorem sortDesc_head_split :
    ∀ (E : List (String × Nat)) (best : String × Nat)
      (rest : List (String × Nat)),
      sortDesc E = best :: rest →
      ∃ E1 E2, E = E1 ++ best :: E2 ∧ ∀ e ∈ E1, e.2 < best.2
  | [], best, rest, h => by simp [sortDesc] at h
  | x :: xs, best, rest, h => by
    rw [show sortDesc (x :: xs) = insertDesc x (sortDesc xs) from rfl] at h
    cases hxs : sortDesc xs with
    | nil =>
      rw [hxs] at h
      simp only [insertDesc] at h
      rcases List.cons.inj h with ⟨rfl, rfl⟩
      exact ⟨[], xs, rfl, by simp⟩
    | cons g gs =>
      rw [hxs] at h
      simp only [insertDesc] at h
      split at h
      · rcases List.cons.inj h with ⟨rfl, rfl⟩
        exact ⟨[], xs, rfl, by simp⟩
      · next hgt =>
        obtain ⟨heq, hrest⟩ := List.cons.inj h
        obtain ⟨E1, E2, hE, hE1⟩ := sortDesc_head_split xs g gs hxs
        subst heq
        refine ⟨x :: E1, E2, by rw [hE]; rfl, ?_⟩
        intro e he
        rcases List.mem_cons.mp he with rfl | he2
        · omega
        · exact hE1 e he2

/-- C7.  Characterization of `detectColumn` for pattern lists without the
empty string (all three semantic-field pattern lists qualify): the score of
a header accumulates the +10 / +5 / +2 per-pattern contributions; when no
header scores positively the detected column is `none` with confidence 0
and no alternates; otherwise the detected column is the FIRST header in
input order attaining the maximal (positive) score — every header before
it scores strictly less, matching the source's stable sort — the
confidence is `min(score / 10, 1)`, and the alternates are the NEXT up to
3 positive-scoring headers in descending score order: one per remaining
positive-scoring header up to 3, and every positive-scoring header that is
neither the detected column nor an alternate scores no more than any
alternate. -/
theorem detectColumn_characterization (headers patterns : List String)
    (hpat : ∀ p ∈ patterns, p ≠ "") :
    (∀ h : String, headerScore patterns (normalizeHeader h) =
      ((patterns.map (patternScore (normalizeHeader h))).sum)) ∧
    ((∀ h ∈ headers, headerScore patterns (normalizeHeader h) = 0) →
      detectColumn headers patterns = ⟨none, 0, []⟩) ∧
    (∀ h0 ∈ headers, 0 < headerScore patterns (normalizeHeader h0) →
      ∃ c, (detectColumn headers patterns).column = some c ∧ c ∈ headers ∧
        0 < headerScore patterns (normalizeHeader c) ∧
        (∀ h ∈ headers, headerScore patterns (normalizeHeader h) ≤
          headerScore patterns (normalizeHeader c)) ∧
        (detectColumn headers patterns).confidence =
          min ((headerScore patterns (normalizeHeader c) : ℚ) / 10) 1 ∧
        (detectColumn headers patterns).alternates.length =
          min 3 ((headers.filter (fun h =>
            0 < headerScore patterns (normalizeHeader h))).length - 1) ∧
        (∀ a ∈ (detectColumn headers patterns).alternates, a ∈ headers ∧
          0 < headerScore patterns (normalizeHeader a) ∧
          headerScore patterns (normalizeHeader a) ≤
            headerScore patterns (normalizeHeader c)) ∧
        List.Pairwise (fun a b =>
          headerScore patterns (normalizeHeader b) ≤
            headerScore patterns (normalizeHeader a))
          (detectColumn headers patterns).alternates ∧
        (∃ H1 H2, headers = H1 ++ c :: H2 ∧
          ∀ h ∈ H1, headerScore patterns (normalizeHeader h) <
            headerScore patterns (normalizeHeader c)) ∧
        (∀ h ∈ headers, 0 < headerScore patterns (normalizeHeader h) →
          h ≠ c → h ∉ (detectColumn headers patterns).alternates →
          ∀ a ∈ (detectColumn headers patterns).alternates,
            headerScore patterns (normalizeHeader h) ≤
              headerScore patterns (normalizeHeader a))) := by
  refine ⟨fun h => headerScore_eq_sum patterns (normalizeHeader h), ?_, ?_⟩
  · intro hzero
    have hent : scoreEntries patterns headers = [] := by
      rw [scoreEntries, List.filterMap_eq_nil_iff]
      intro h hmem
      show (if headerScore patterns (normalizeHeader h) > 0
        then some (h, headerScore patterns (normalizeHeader h))
        else none) = none
      rw [if_neg (by rw [hzero h hmem]; omega)]
    unfold detectColumn
    rw [hent]
    rfl
  · intro h0 hmem0 hpos0
    have hin : (h0, headerScore patterns (normalizeHeader h0)) ∈
        scoreEntries patterns headers :=
      (mem_scoreEntries _ _ _).mpr ⟨hmem0, rfl, hpos0⟩
    have hin2 : (h0, headerScore patterns (normalizeHeader h0)) ∈
        sortDesc (scoreEntries patterns headers) :=
      (sortDesc_perm _).mem_iff.mpr hin
    rcases hs : sortDesc (scoreEntries patterns headers) with _ | ⟨best, rest⟩
    · rw [hs] at hin2
      exact absurd hin2 (List.not_mem_nil _)
    · have hbest_mem : best ∈ scoreEntries patterns headers := by
        apply (sortDesc_perm _).mem_iff.mp
        rw [hs]
        exact List.mem_cons_self _ _
      obtain ⟨hbH, hbS, hbpos⟩ := (mem_scoreEntries _ _ _).mp hbest_mem
      have hsorted := sortDesc_sorted (scoreEntries patterns headers)
      rw [hs] at hsorted
      obtain ⟨hmax, hrest⟩ := List.pairwise_cons.mp hsorted
      have hbne : best.1 ≠ "" := by
        intro hemp
        rw [hemp, show normalizeHeader "" = "" from rfl,
          headerScore_empty_eq_zero patterns hpat] at hbS
        omega
      have hd : detectColumn headers patterns =
          ⟨some best.1, min ((best.2 : ℚ) / 10) 1,
            (rest.take 3).map Prod.fst⟩ := by
        unfold detectColumn
        rw [hs]
        simp [hbne]
      have hmemrest : ∀ e ∈ rest, e.1 ∈ headers ∧
          e.2 = headerScore patterns (normalizeHeader e.1) ∧ 0 < e.2 := by
        intro e he
        apply (mem_scoreEntries _ _ _).mp
        apply (sortDesc_perm _).mem_iff.mp
        rw [hs]
        exact List.mem_cons_of_mem _ he
      refine ⟨best.1, by simp only [hd], hbH, ?_, ?_, ?_, ?_, ?_, ?_, ?_, ?_⟩
      · rw [hbS] at hbpos
        exact hbpos
      · intro h hmem
        by_cases hz : headerScore patterns (normalizeHeader h) = 0
        · rw [hz]
          exact Nat.zero_le _
        · have hpos : 0 < headerScore patterns (normalizeHeader h) :=
            Nat.pos_of_ne_zero hz
          have hmem2 : (h, headerScore patterns (normalizeHeader h)) ∈
              sortDesc (scoreEntries patterns headers) :=
            (sortDesc_perm _).mem_iff.mpr
              ((mem_scoreEntries _ _ _).mpr ⟨hmem, rfl, hpos⟩)
          rw [hs] at hmem2
          rcases List.mem_cons.mp hmem2 with heq | hr
          · have h2 : headerScore patterns (normalizeHeader h) = best.2 :=
              congrArg Prod.snd heq
            omega
          · have h2 := hmax _ hr
            simp only at h2
            omega
      · simp only [hd]
        rw [hbS]
      · simp only [hd]
        rw [List.length_map, List.length_take]
        have hlen := scoreEntries_length patterns headers
        have hslen := (sortDesc_perm (scoreEntries patterns headers)).length_eq
        rw [hs] at hslen
        simp only [List.length_cons] at hslen
        omega
      · intro a ha
        simp only [hd] at ha
        obtain ⟨e, he, rfl⟩ := List.mem_map.mp ha
        have he2 : e ∈ rest := (List.take_sublist 3 rest).subset he
        obtain ⟨heH, heS, hepos⟩ := hmemrest e he2
        have hle := hmax _ he2
        simp only at hle
        exact ⟨heH, by omega, by omega⟩
      · simp only [hd]
        rw [List.pairwise_map]
        apply List.Pairwise.imp_of_mem ?_
          (List.Pairwise.sublist (List.take_sublist 3 rest) hrest)
        intro e f he hf hle
        obtain ⟨-, heS, -⟩ := hmemrest e ((List.take_sublist 3 rest).subset he)
        obtain ⟨-, hfS, -⟩ := hmemrest f ((List.take_sublist 3 rest).subset hf)
        omega
      · obtain ⟨E1, E2, hE, hE1⟩ := sortDesc_head_split _ _ _ hs
        rw [scoreEntries] at hE
        obtain ⟨H1, h1, H2, hH, hfh, hfm⟩ :=
          filterMap_eq_append_cons _ headers E1 E2 best hE
        have hf1 : (if headerScore patterns (normalizeHeader h1) > 0
            then some (h1, headerScore patterns (normalizeHeader h1))
            else none) = some best := hfh
        split at hf1
        · have heq := Option.some.inj hf1
          have hh1 : h1 = best.1 := congrArg Prod.fst heq
          refine ⟨H1, H2, by rw [← hh1]; exact hH, ?_⟩
          intro h2 hmem2
          by_cases hz : headerScore patterns (normalizeHeader h2) = 0
          · rw [hz]
            omega
          · have hpos2 : 0 < headerScore patterns (normalizeHeader h2) :=
              Nat.pos_of_ne_zero hz
            have hmemE1 : (h2, headerScore patterns (normalizeHeader h2))
                ∈ E1 := by
              rw [← hfm]
              apply List.mem_filterMap.mpr
              refine ⟨h2, hmem2, ?_⟩
              show (if headerScore patterns (normalizeHeader h2) > 0
                then some (h2, headerScore patterns (normalizeHeader h2))
                else none) = some (h2,
                  headerScore patterns (normalizeHeader h2))
              rw [if_pos hpos2]
            have hlt := hE1 _ hmemE1
            simp only at hlt
            omega
        · exact absurd hf1 (by simp)
      · intro h2 hmem2 hpos2 hne2 hnotalt a ha
        have hmem3 : (h2, headerScore patterns (normalizeHeader h2)) ∈
            sortDesc (scoreEntries patterns headers) :=
          (sortDesc_perm _).mem_iff.mpr
            ((mem_scoreEntries _ _ _).mpr ⟨hmem2, rfl, hpos2⟩)
        rw [hs] at hmem3
        rcases List.mem_cons.mp hmem3 with heq | hr
        · exact absurd (congrArg Prod.fst heq) hne2
        · have hcross : ∀ e ∈ rest.take 3, ∀ g ∈ rest.drop 3,
              g.2 ≤ e.2 := by
            have hra := hrest
            rw [show rest = rest.take 3 ++ rest.drop 3 from
              (List.take_append_drop 3 rest).symm] at hra
            exact (List.pairwise_append.mp hra).2.2
          have hrd : (h2, headerScore patterns (normalizeHeader h2)) ∈
              rest.drop 3 := by
            have hr2 : (h2, headerScore patterns (normalizeHeader h2)) ∈
                rest.take 3 ++ rest.drop 3 := by
              rw [List.take_append_drop]
              exact hr
            rcases List.mem_append.mp hr2 with ht | hdp
            · exfalso
              apply hnotalt
              simp only [hd]
              exact List.mem_map_of_mem Prod.fst ht
            · exact hdp
          simp only [hd] at ha
          obtain ⟨e, he, rfl⟩ := List.mem_map.mp ha
          have hle := hcross e he _ hrd
          obtain ⟨-, heS, -⟩ :=
            hmemrest e ((List.take_sublist 3 rest).subset he)
          simp only at hle
          omega

/-- Witness for C7: the Scenario A headers with the phone pattern list.
The detected column is a maximal-score header ("Mobile Number", scoring +5
for "mobile" and +5 for "number"). -/
theorem detectColumn_characterization_witness :
    (∀ p ∈ phonePatterns, p ≠ "") ∧
    "Mobile Number" ∈ ["Customer Name", "Mobile Number", "Email Address"] ∧
    0 < headerScore phonePatterns (normalizeHeader "Mobile Number") ∧
    (∃ c, (detectColumn ["Customer Name", "Mobile Number", "Email Address"]
        phonePatterns).column = some c ∧
      c ∈ ["Customer Name", "Mobile Number", "Email Address"] ∧
      0 < headerScore phonePatterns (normalizeHeader c) ∧
      (∀ h ∈ ["Customer Name", "Mobile Number", "Email Address"],
        headerScore phonePatterns (normalizeHeader h) ≤
          headerScore phonePatterns (normalizeHeader c)) ∧
      (detectColumn ["Customer Name", "Mobile Number", "Email Address"]
        phonePatterns).confidence =
        min ((headerScore phonePatterns (normalizeHeader c) : ℚ) / 10) 1 ∧
      (detectColumn ["Customer Name", "Mobile Number", "Email Address"]
        phonePatterns).alternates.length =
        min 3 ((["Customer Name", "Mobile Number", "Email Address"].filter
          (fun h => 0 < headerScore phonePatterns (normalizeHeader h))).length
            - 1) ∧
      (∀ a ∈ (detectColumn ["Customer Name", "Mobile Number", "Email Address"]
          phonePatterns).alternates,
        a ∈ ["Customer Name", "Mobile Number", "Email Address"] ∧
        0 < headerScore phonePatterns (normalizeHeader a) ∧
        headerScore phonePatterns (normalizeHeader a) ≤
          headerScore phonePatterns (normalizeHeader c)) ∧
      List.Pairwise (fun a b =>
        headerScore phonePatterns (normalizeHeader b) ≤
          headerScore phonePatterns (normalizeHeader a))
        (detectColumn ["Customer Name", "Mobile Number", "Email Address"]
          phonePatterns).alternates ∧
      (∃ H1 H2, ["Customer Name", "Mobile Number", "Email Address"] =
          H1 ++ c :: H2 ∧
        ∀ h ∈ H1, headerScore phonePatterns (normalizeHeader h) <
          headerScore phonePatterns (normalizeHeader c)) ∧
      (∀ h ∈ ["Customer Name", "Mobile Number", "Email Address"],
        0 < headerScore phonePatterns (normalizeHeader h) → h ≠ c →
        h ∉ (detectColumn ["Customer Name", "Mobile Number", "Email Address"]
          phonePatterns).alternates →
        ∀ a ∈ (detectColumn
            ["Customer Name", "Mobile Number", "Email Address"]
            phonePatterns).alternates,
          headerScore phonePatterns (normalizeHeader h) ≤
            headerScore phonePatterns (normalizeHeader a))) :=
  ⟨by decide, by decide, by decide,
   (detectColumn_characterization
       ["Customer Name", "Mobile Number", "Email Address"] phonePatterns
       (by decide)).2.2
     "Mobile Number" (by decide) (by decide)⟩
